import Mathlib

/-!
# imgproxy: query-string options, metadata sanitizer, watermark compositor

A shallow embedding of

* `options/query_options.go` (`ParseQuery`, `parseQueryOptions`, `parseQueryToURLOptions`),
* `processing/strip_metadata.go` (`stripIPTC`, `stripXMP`, `stripMetadata`),
* `processing/watermark.go` (`prepareWatermark`, `applyWatermark`, `watermark`).

Conventions.

* A Go `string` is a Lean `String`; the only bytes the code searches for (`?`, `/`, `:`) are
  ASCII, so splitting on characters and on bytes agree.
* A Go `map` is given by an enumeration of its entries (a list of key/value pairs, one pair per
  key). The order of the list is the order in which `range` happens to visit the map; two
  enumerations of one map are permutations of each other.
* A Go `(value, error)` result is kept as it is returned: a tuple whose last component is
  `none` for a `nil` error. A run-time panic (index out of range, integer division by zero) is
  an outer `none`.
* Go `int` is `Int`, `float64` is `ℚ` (exact arithmetic), `int(f)` truncates toward zero.
  Image sizes, frame counts and offsets are taken to be far inside the 64-bit range, so no
  wrap-around is modelled.
* Functions of other packages (the option handlers, the URL decoder, the image engine, the IPTC
  and XMP libraries) are fields of an environment record; every call made to the image engine
  or to a handler is appended to a log, so that "is called", "is not called" and "is called
  after" are statements about that log.
-/

namespace Imgproxy

/-! ## Strings -/

/-- The pieces of `cs` between the occurrences of `sep`; never empty. -/
def splitChars (sep : Char) : List Char → List (List Char)
  | [] => [[]]
  | c :: cs =>
    if c = sep then [] :: splitChars sep cs
    else
      match splitChars sep cs with
      | [] => [[c]]
      | h :: t => (c :: h) :: t

/-- Go `strings.Split(s, sep)` for a one-character separator. -/
def stringsSplit (s : String) (sep : Char) : List String :=
  (splitChars sep s.toList).map String.mk

/-- Go `strings.TrimPrefix(s, "/")`. -/
def trimLeadingSlash (s : String) : String :=
  match s.toList with
  | '/' :: rest => String.mk rest
  | _ => s

/-- Go `strings.IndexByte(path, '?')` followed by `path = path[:queryStart]` when the index is
not negative: the part of `path` before the first `?`. -/
def cutQuery (path : String) : String :=
  String.mk (path.toList.takeWhile (fun c => c != '?'))

/-! ## Errors -/

/-- A Go `error` value: one built by `ierrors.New(status, message, publicMessage)`, or any other
error (returned by a handler, the decoder, the engine). -/
inductive GoError where
  | ierror (StatusCode : Int) (Message : String) (PublicMessage : String)
  | other (msg : String)
deriving DecidableEq, Repr

/-- The HTTP status an error carries, if it is an `ierrors` error. -/
def GoError.status : GoError → Option Int
  | .ierror s _ _ => some s
  | .other _ => none

/-! ## `options/query_options.go` -/

/-- A parsed option: its name and its colon-separated arguments. -/
structure urlOption where
  Name : String
  Args : List String
deriving DecidableEq, Repr

/-- An ordered sequence of options. -/
abbrev urlOptions := List urlOption

/-- Go `url.Values` (`map[string][]string`), as the enumeration `range` produces. -/
abbrev Values := List (String × List String)

/-- One iteration of the loop of `parseQueryToURLOptions`: `opt[len(opt)-1]` is the last value
of the key (a panic when the key has no value), split on `:`. -/
def parseQueryEntry (e : String × List String) : Option urlOption :=
  match e.2.getLast? with
  | none => none
  | some last => some { Name := e.1, Args := stringsSplit last ':' }

/-- The loop of `parseQueryToURLOptions`: `parsed` grows by one entry per visited key. -/
def parseQueryLoop : Values → urlOptions → Option urlOptions
  | [], parsed => some parsed
  | e :: rest, parsed =>
    match parseQueryEntry e with
    | none => none
    | some o => parseQueryLoop rest (parsed ++ [o])

/-- The function `parseQueryToURLOptions`; `opts` is the map in the order `range` visits it. -/
def parseQueryToURLOptions (opts : Values) : Option urlOptions :=
  parseQueryLoop opts []

/-- A call made by the parser to a function of another file or package. -/
inductive ParserCall where
  | parseRequestURI (path : String)
  | defaultProcessingOptions
  | applyURLOptions (options : urlOptions)
  | decodeURL (parts : List String)
  | applyFormatOption (args : List String)
deriving DecidableEq, Repr

/-- The functions `ParseQuery` and `parseQueryOptions` call and this file does not define.
`parseRequestURI` stands for `url.ParseRequestURI` followed by `Query()`: the query values of
the parsed URL, in the order the later `range` visits them. A handler receives the options
record and returns the mutated record, or an error. -/
structure ParserEnv (PO Headers : Type) where
  parseRequestURI : String → Except GoError Values
  defaultProcessingOptions : Headers → Except GoError PO
  applyURLOptions : PO → urlOptions → Except GoError PO
  decodeURL : List String → Except GoError (String × String)
  applyFormatOption : PO → List String → Except GoError PO

/-- What `ParseQuery` returns: Go's `(*ProcessingOptions, string, error)`. -/
abbrev ParseResult (PO : Type) := Option PO × String × Option GoError

/-- The function `parseQueryOptions`, with the log of the calls it makes. -/
def parseQueryOptions {PO Headers : Type} (env : ParserEnv PO Headers)
    (pathParts : List String) (ops : Values) (headers : Headers) :
    Option (ParseResult PO × List ParserCall) :=
  match env.defaultProcessingOptions headers with
  | .error err => some ((none, "", some err), [.defaultProcessingOptions])
  | .ok po =>
    match parseQueryToURLOptions ops with
    | none => none
    | some options =>
      match env.applyURLOptions po options with
      | .error err =>
        some ((none, "", some err), [.defaultProcessingOptions, .applyURLOptions options])
      | .ok po =>
        match env.decodeURL pathParts with
        | .error err =>
          some ((none, "", some err),
            [.defaultProcessingOptions, .applyURLOptions options, .decodeURL pathParts])
        | .ok (url, extension) =>
          if extension.utf8ByteSize > 0 then
            match env.applyFormatOption po [extension] with
            | .error err =>
              some ((none, "", some err),
                [.defaultProcessingOptions, .applyURLOptions options, .decodeURL pathParts,
                  .applyFormatOption [extension]])
            | .ok po =>
              some ((some po, url, none),
                [.defaultProcessingOptions, .applyURLOptions options, .decodeURL pathParts,
                  .applyFormatOption [extension]])
          else
            some ((some po, url, none),
              [.defaultProcessingOptions, .applyURLOptions options, .decodeURL pathParts])

/-- The function `ParseQuery`, with the log of the calls it makes. -/
def ParseQuery {PO Headers : Type} (env : ParserEnv PO Headers) (path : String)
    (headers : Headers) : Option (ParseResult PO × List ParserCall) :=
  if path = "" ∨ path = "/" then
    some ((none, "", some (.ierror 404 ("Invalid path: " ++ path) "Invalid URL")), [])
  else
    let parsedUrl := env.parseRequestURI path
    let path1 := cutQuery path
    match parsedUrl with
    | .error _ =>
      some ((none, "", some (.ierror 404 ("Invalid Query: " ++ path1) "Invalid Query")),
        [.parseRequestURI path])
    | .ok query =>
      let parts := stringsSplit (trimLeadingSlash path1) '/'
      match parseQueryOptions env parts query headers with
      | none => none
      | some (r, log) => some (r, .parseRequestURI path :: log)

/-! ## Options record -/

/-- The resizing types of the options package. -/
inductive ResizeType where
  | ResizeFit | ResizeFill | ResizeFillDown | ResizeForce | ResizeAuto
deriving DecidableEq, Repr

/-- The image types of the `imagetype` package. -/
inductive ImageType where
  | Unknown | JPEG | PNG | WEBP | GIF | ICO | SVG | HEIC | AVIF | BMP | TIFF
deriving DecidableEq, Repr

/-- The gravity types of the options package. -/
inductive GravityType where
  | GravityUnknown | GravityCenter | GravityNorth | GravityEast | GravitySouth | GravityWest
  | GravityNorthWest | GravityNorthEast | GravitySouthWest | GravitySouthEast
  | GravitySmart | GravityFocusPoint
deriving DecidableEq, Repr

/-- The record `options.GravityOptions`: a gravity type (the field `Type`) and two offsets. -/
structure GravityOptions where
  Typ : GravityType
  X : ℚ
  Y : ℚ
deriving DecidableEq

/-- The record `options.PaddingOptions`. -/
structure PaddingOptions where
  Enabled : Bool
  Top : Int
  Right : Int
  Bottom : Int
  Left : Int
deriving DecidableEq

/-- The record `options.WatermarkOptions`. -/
structure WatermarkOptions where
  Enabled : Bool
  Opacity : ℚ
  Replicate : Bool
  Gravity : GravityOptions
  Scale : ℚ
deriving DecidableEq

/-- The fields of `options.ProcessingOptions` that the three source files read or write. -/
structure ProcessingOptions where
  ResizingType : ResizeType
  Width : Int
  Height : Int
  Dpr : ℚ
  Enlarge : Bool
  Format : ImageType
  Padding : PaddingOptions
  Watermark : WatermarkOptions
  StripMetadata : Bool
  KeepCopyright : Bool
deriving DecidableEq

/-! ## Option handlers, from the spec

The handlers live in a file of the options package that is not part of this development. The
parser above takes them as parameters; the definitions below give one instance, used to run the
parser on concrete requests. -/

/-- Decimal digits to a number, most significant first; `none` on a non-digit. -/
def digitsValue : List Char → Nat → Option Nat
  | [], acc => some acc
  | c :: cs, acc => if c.isDigit then digitsValue cs (10 * acc + (c.toNat - 48)) else none

/-- A non-empty string of decimal digits as a non-negative integer. -/
def parseDimension (s : String) : Option Int :=
  match s.toList with
  | [] => none
  | cs => (digitsValue cs 0).map Int.ofNat

/-- Modelled from the spec: the table of image types by extension (`imagetype.Types`), which the
`format` handler consults; the sources do not include it. -/
def imageTypeOfName : String → Option ImageType
  | "jpeg" => some .JPEG
  | "jpg" => some .JPEG
  | "png" => some .PNG
  | "webp" => some .WEBP
  | "gif" => some .GIF
  | "ico" => some .ICO
  | "svg" => some .SVG
  | "heic" => some .HEIC
  | "avif" => some .AVIF
  | "bmp" => some .BMP
  | "tiff" => some .TIFF
  | _ => none

/-- Modelled from the spec: the `format` handler (`applyFormatOption`, not in the sources): one
argument naming an image type sets the output format; anything else is an error. -/
def specApplyFormatOption (po : ProcessingOptions) (args : List String) :
    Except GoError ProcessingOptions :=
  match args with
  | [name] =>
    match imageTypeOfName name with
    | some t => .ok { po with Format := t }
    | none => .error (.other ("Invalid image format: " ++ name))
  | _ => .error (.other "Invalid format arguments")

/-- Modelled from the spec: the resizing-type tokens (the handler is not in the sources). -/
def resizeTypeOfName : String → Option ResizeType
  | "fit" => some .ResizeFit
  | "fill" => some .ResizeFill
  | "fill-down" => some .ResizeFillDown
  | "force" => some .ResizeForce
  | "auto" => some .ResizeAuto
  | _ => none

/-- Modelled from the spec: the standalone `width` handler (not in the sources): one
non-negative integer. -/
def specApplyWidthOption (po : ProcessingOptions) (args : List String) :
    Except GoError ProcessingOptions :=
  match args with
  | [w] =>
    match parseDimension w with
    | some n => .ok { po with Width := n }
    | none => .error (.other ("Invalid width: " ++ w))
  | _ => .error (.other "Invalid width arguments")

/-- Modelled from the spec: the standalone `height` handler (not in the sources). -/
def specApplyHeightOption (po : ProcessingOptions) (args : List String) :
    Except GoError ProcessingOptions :=
  match args with
  | [h] =>
    match parseDimension h with
    | some n => .ok { po with Height := n }
    | none => .error (.other ("Invalid height: " ++ h))
  | _ => .error (.other "Invalid height arguments")

/-- Modelled from the spec: the `resize` handler (not in the sources), for the grammar
`type:width:height`: each token present and not empty is validated and written, an empty token
is skipped, and nothing is written when a token is invalid. -/
def specApplyResizeOption (po : ProcessingOptions) (args : List String) :
    Except GoError ProcessingOptions :=
  let field {α : Type} (tok : Option String) (parse : String → Option α) (old : α) :
      Option α :=
    match tok with
    | none => some old
    | some "" => some old
    | some t => parse t
  if args.length > 3 then .error (.other "Invalid resize arguments")
  else
    match field args.head? resizeTypeOfName po.ResizingType,
        field (args.get? 1) parseDimension po.Width,
        field (args.get? 2) parseDimension po.Height with
    | some t, some w, some h => .ok { po with ResizingType := t, Width := w, Height := h }
    | _, _, _ => .error (.other "Invalid resize arguments")

/-- Modelled from the spec: dispatch of one option to its handler by name (not in the sources);
an unknown name is an error. -/
def specApplyURLOption (po : ProcessingOptions) (o : urlOption) :
    Except GoError ProcessingOptions :=
  match o.Name with
  | "resize" => specApplyResizeOption po o.Args
  | "width" => specApplyWidthOption po o.Args
  | "height" => specApplyHeightOption po o.Args
  | "format" => specApplyFormatOption po o.Args
  | name => .error (.other ("Unknown processing option " ++ name))

/-- Modelled from the spec: `applyURLOptions` (not in the sources) applies the entries in
sequence order and stops at the first error. -/
def specApplyURLOptions (po : ProcessingOptions) : urlOptions → Except GoError ProcessingOptions
  | [] => .ok po
  | o :: rest =>
    match specApplyURLOption po o with
    | .error err => .error err
    | .ok po1 => specApplyURLOptions po1 rest

/-- Default options used when running the parser on concrete requests. -/
def sampleDefaults : ProcessingOptions :=
  { ResizingType := .ResizeFit, Width := 0, Height := 0, Dpr := 1, Enlarge := false,
    Format := .Unknown,
    Padding := { Enabled := false, Top := 0, Right := 0, Bottom := 0, Left := 0 },
    Watermark :=
      { Enabled := false, Opacity := 1, Replicate := false, Scale := 0,
        Gravity := { Typ := .GravityCenter, X := 0, Y := 0 } },
    StripMetadata := true, KeepCopyright := true }

/-- A parser environment built from the handlers above. The URL parser and the path decoder are
fixed by their answers: `query` is what the request's query string holds, `decoded` what the
path decodes to. -/
def sampleEnv (query : Values) (decoded : String × String) : ParserEnv ProcessingOptions Unit :=
  { parseRequestURI := fun _ => .ok query
    defaultProcessingOptions := fun _ => .ok sampleDefaults
    applyURLOptions := specApplyURLOptions
    decodeURL := fun _ => .ok decoded
    applyFormatOption := specApplyFormatOption }

/-! ## Image engine -/

/-- A byte slice; only its length and its identity matter here. -/
abbrev Bytes := List Nat

/-- A Go `[]byte` result that may be `nil` (`none`). -/
abbrev Blob := Option Bytes

/-- Go `len` of a possibly-nil byte slice. -/
def Blob.len : Blob → Nat
  | none => 0
  | some b => b.length

/-- The record `imagedata.ImageData` (the field `Type` and the bytes). -/
structure ImageData where
  Typ : ImageType
  Data : Bytes
deriving DecidableEq

/-- A call of a method of `vips.Image`, or of the watermark pipeline, with its arguments. -/
inductive VipsCall where
  | GetBlob (name : String)
  | SetBlob (name : String) (data : Bytes)
  | Strip (keepExifCopyright : Bool)
  | RgbColourspace
  | Load
  | RunPipeline (po : ProcessingOptions)
  | CopyMemory
  | Replicate (width height : Int)
  | Embed (width height offX offY : Int)
  | ApplyWatermark (opacity : ℚ)
  | Clear
deriving DecidableEq

/-- The calls that change an image's metadata. -/
def VipsCall.isMutation : VipsCall → Bool
  | .SetBlob _ _ => true
  | .Strip _ => true
  | _ => false

/-- The methods of `vips.Image` the processing code calls, over an abstract image state `Img`.
A method that can fail returns the new state or the error. -/
structure Vips (Img : Type) where
  GetBlob : Img → String → Except GoError Bytes
  SetBlob : Img → String → Bytes → Img
  Strip : Img → Bool → Except GoError Img
  RgbColourspace : Img → Except GoError Img
  Load : Img → ImageData → Except GoError Img
  CopyMemory : Img → Except GoError Img
  Replicate : Img → Int → Int → Except GoError Img
  Embed : Img → Int → Int → Int → Int → Except GoError Img
  Width : Img → Int
  Height : Img → Int
  ApplyWatermark : Img → Img → ℚ → Except GoError Img
  Clear : Img → Img
  empty : Img

/-- The result of a sequence of engine calls (the final value or the first error) and the calls
made, in order. -/
abbrev Step (α : Type) := Except GoError α × List VipsCall

/-- No call. -/
def Step.pure {α : Type} (a : α) : Step α := (.ok a, [])

/-- One call and its outcome. -/
def Step.call {α : Type} (c : VipsCall) (r : Except GoError α) : Step α := (r, [c])

/-- Sequencing with Go's `if err != nil { return err }`: the rest runs only after a success. -/
def Step.bind {α β : Type} (x : Step α) (f : α → Step β) : Step β :=
  match x with
  | (.error err, log) => (.error err, log)
  | (.ok a, log) => ((f a).1, log ++ (f a).2)

/-! ## `processing/strip_metadata.go` -/

/-- The key type `iptc.IptcKey`. -/
structure IptcKey where
  RecordID : Nat
  TagID : Nat
deriving DecidableEq, Repr

/-- The map type `iptc.IptcMap`, as an enumeration of its entries. -/
abbrev IptcMap := List (IptcKey × Bytes)

/-- The functions of the `iptc` package that `stripIPTC` calls: `ParsePS3` fills a fresh map,
`Dump` serialises one. -/
structure IptcLib where
  ParsePS3 : Bytes → Except GoError IptcMap
  Dump : IptcMap → Bytes

/-- The condition of the `if` in the loop of `stripIPTC`. -/
def iptcDeleted (key : IptcKey) : Bool :=
  key.RecordID == 2 && key.TagID != 80 && key.TagID != 110 && key.TagID != 116

/-- Go `delete(iptcMap, key)`. -/
def iptcDelete (m : IptcMap) (key : IptcKey) : IptcMap :=
  m.filter (fun e => e.1 != key)

/-- The loop `for key := range iptcMap { if ... { delete(iptcMap, key) } }` over the keys still
to visit. -/
def iptcLoop : List IptcKey → IptcMap → IptcMap
  | [], m => m
  | key :: keys, m => iptcLoop keys (if iptcDeleted key then iptcDelete m key else m)

/-- The map `stripIPTC` is left with after its loop. -/
def iptcKept (iptcMap : IptcMap) : IptcMap :=
  iptcLoop (iptcMap.map Prod.fst) iptcMap

/-- The function `stripIPTC`. -/
def stripIPTC {Img : Type} (V : Vips Img) (L : IptcLib) (img : Img) : Blob :=
  match V.GetBlob img "iptc-data" with
  | .error _ => none
  | .ok iptcData =>
    if iptcData.length = 0 then none
    else
      match L.ParsePS3 iptcData with
      | .error _ => none
      | .ok iptcMap =>
        if (iptcKept iptcMap).length = 0 then none
        else some (L.Dump (iptcKept iptcMap))

/-- An XMP namespace, by its name (`ns.Name`). -/
structure XmpNamespace where
  Name : String
deriving DecidableEq, Repr

/-- An attribute of a node: `a.Name.Local` and its value. -/
structure XmpAttr where
  Local : String
  Value : String
deriving DecidableEq, Repr

/-- A child of a top-level node: its `Name()` and what it holds. -/
structure XmpChild where
  Name : String
  Content : String
deriving DecidableEq, Repr

/-- A top-level node of an XMP document: its `Name()`, its children `Nodes` and its attributes
`Attr`. -/
structure XmpNode where
  Name : String
  Nodes : List XmpChild
  Attr : List XmpAttr
deriving DecidableEq, Repr

/-- An XMP document: what `Namespaces()` and `Nodes()` return. -/
structure XmpDocument where
  Namespaces : List XmpNamespace
  Nodes : List XmpNode
deriving DecidableEq, Repr

/-- The functions of the XMP library that `stripXMP` calls. -/
structure XmpLib where
  Read : Bytes → Except GoError XmpDocument
  FilterNamespaces : XmpDocument → List XmpNamespace → XmpDocument
  Marshal : XmpDocument → Except GoError Bytes

/-- The namespaces `stripXMP` keeps. -/
def xmpKeptNamespace (ns : XmpNamespace) : Bool :=
  ns.Name == "dc" || ns.Name == "xmpRights" || ns.Name == "cc"

/-- The children of a `dc` node `stripXMP` keeps. -/
def xmpKeptChild (nn : XmpChild) : Bool :=
  nn.Name == "rights" || nn.Name == "contributor" || nn.Name == "creator" ||
    nn.Name == "publisher"

/-- The attributes of a `dc` node `stripXMP` keeps. -/
def xmpKeptAttr (a : XmpAttr) : Bool :=
  a.Local == "dc:rights" || a.Local == "dc:contributor" || a.Local == "dc:creator" ||
    a.Local == "dc:publisher"

/-- The body of the loop over the top-level nodes: a `dc` node has its children and attributes
filtered in place, any other node is left alone. -/
def xmpFilterNode (n : XmpNode) : XmpNode :=
  if n.Name == "dc" then
    { n with Nodes := n.Nodes.filter xmpKeptChild, Attr := n.Attr.filter xmpKeptAttr }
  else n

/-- The document `stripXMP` holds when it tests `len(xmpDoc.Nodes()) == 0`: namespaces filtered
by the library, then every top-level node passed through the loop body. -/
def xmpFiltered (X : XmpLib) (xmpDoc : XmpDocument) : XmpDocument :=
  let filteredNs := xmpDoc.Namespaces.filter xmpKeptNamespace
  let doc1 := X.FilterNamespaces xmpDoc filteredNs
  { doc1 with Nodes := doc1.Nodes.map xmpFilterNode }

/-- The function `stripXMP`. -/
def stripXMP {Img : Type} (V : Vips Img) (X : XmpLib) (img : Img) : Blob :=
  match V.GetBlob img "xmp-data" with
  | .error _ => none
  | .ok xmpData =>
    if xmpData.length = 0 then none
    else
      match X.Read xmpData with
      | .error _ => none
      | .ok xmpDoc =>
        if (xmpFiltered X xmpDoc).Nodes.length = 0 then none
        else
          match X.Marshal (xmpFiltered X xmpDoc) with
          | .error _ => none
          | .ok data => some data

/-- What `stripMetadata` returns: its error, the image afterwards, the engine calls in order. -/
abbrev StageResult (Img : Type) := Option GoError × Img × List VipsCall

/-- The function `stripMetadata`. -/
def stripMetadata {Img : Type} (V : Vips Img) (L : IptcLib) (X : XmpLib) (img : Img)
    (po : ProcessingOptions) : StageResult Img :=
  if !po.StripMetadata then (none, img, [])
  else
    let iptcData : Blob := if po.KeepCopyright then stripIPTC V L img else none
    let xmpData : Blob := if po.KeepCopyright then stripXMP V X img else none
    let reads : List VipsCall :=
      if po.KeepCopyright then [.GetBlob "iptc-data", .GetBlob "xmp-data"] else []
    match V.Strip img po.KeepCopyright with
    | .error err => (some err, img, reads ++ [.Strip po.KeepCopyright])
    | .ok img1 =>
      if po.KeepCopyright then
        let s1 : Img × List VipsCall :=
          if iptcData.len > 0 then
            (V.SetBlob img1 "iptc-data" (iptcData.getD []),
              [.SetBlob "iptc-data" (iptcData.getD [])])
          else (img1, [])
        let s2 : Img × List VipsCall :=
          if xmpData.len > 0 then
            (V.SetBlob s1.1 "xmp-data" (xmpData.getD []),
              [.SetBlob "xmp-data" (xmpData.getD [])])
          else (s1.1, [])
        (none, s2.1, reads ++ [.Strip po.KeepCopyright] ++ s1.2 ++ s2.2)
      else (none, img1, reads ++ [.Strip po.KeepCopyright])

/-! ## `processing/watermark.go` -/

/-- Go `int(f)` for a float held as an exact rational: truncation toward zero. -/
def goInt (f : ℚ) : Int :=
  Int.tdiv f.num f.den

/-- What `prepareWatermark` and `applyWatermark` use and `watermark.go` does not define:
`options.NewProcessingOptions()`, `imath.Scale`, `calcPosition`, a run of `watermarkPipeline`,
and the configured `config.WatermarkOpacity`. -/
structure WatermarkEnv (Img : Type) where
  NewProcessingOptions : ProcessingOptions
  Scale : Int → ℚ → Int
  calcPosition : Int → Int → Int → Int → GravityOptions → Bool → Int × Int
  RunPipeline : Img → ProcessingOptions → ImageData → Except GoError Img
  WatermarkOpacity : ℚ

/-- The options `prepareWatermark` builds for the watermark pipeline (`po` at the point where
`watermarkPipeline.Run` is called). -/
def watermarkOptions {Img : Type} (E : WatermarkEnv Img) (wmData : ImageData)
    (opts : WatermarkOptions) (imgWidth imgHeight : Int) : ProcessingOptions :=
  let po0 := E.NewProcessingOptions
  let po1 : ProcessingOptions :=
    { po0 with ResizingType := .ResizeFit, Dpr := 1, Enlarge := true, Format := wmData.Typ }
  let po2 : ProcessingOptions :=
    if opts.Scale > 0 then
      { po1 with
        Width := max (E.Scale imgWidth opts.Scale) 1
        Height := max (E.Scale imgHeight opts.Scale) 1 }
    else po1
  if opts.Replicate then
    let left := goInt (opts.Gravity.X / 2)
    let top := goInt (opts.Gravity.Y / 2)
    { po2 with
      Padding :=
        { Enabled := true
          Left := left
          Right := goInt opts.Gravity.X - left
          Top := top
          Bottom := goInt opts.Gravity.Y - top } }
  else po2

/-- The function `prepareWatermark`: the watermark image afterwards, or the first error, and the
engine calls made on it. -/
def prepareWatermark {Img : Type} (V : Vips Img) (E : WatermarkEnv Img) (wm : Img)
    (wmData : ImageData) (opts : WatermarkOptions) (imgWidth imgHeight framesCount : Int) :
    Step Img :=
  Step.bind (Step.call .Load (V.Load wm wmData)) fun wm1 =>
  let po := watermarkOptions E wmData opts imgWidth imgHeight
  Step.bind (Step.call (.RunPipeline po) (E.RunPipeline wm1 po wmData)) fun wm2 =>
  Step.bind
    (if opts.Replicate || decide (framesCount > 1) then
      Step.call .CopyMemory (V.CopyMemory wm2)
    else Step.pure wm2) fun wm3 =>
  Step.bind
    (if opts.Replicate then
      Step.call (.Replicate imgWidth imgHeight) (V.Replicate wm3 imgWidth imgHeight)
    else
      let pos := E.calcPosition imgWidth imgHeight (V.Width wm3) (V.Height wm3) opts.Gravity true
      Step.call (.Embed imgWidth imgHeight pos.1 pos.2)
        (V.Embed wm3 imgWidth imgHeight pos.1 pos.2)) fun wm4 =>
  if framesCount > 1 then
    Step.call (.Replicate imgWidth (imgWidth * framesCount))
      (V.Replicate wm4 imgWidth (imgWidth * framesCount))
  else Step.pure wm4

/-- The function `applyWatermark`: the primary image afterwards, or the first error, and the
engine calls in order (the deferred `wm.Clear()` last). The outer `none` is the panic of
`height/framesCount` when `framesCount` is zero. -/
def applyWatermark {Img : Type} (V : Vips Img) (E : WatermarkEnv Img) (img : Img)
    (wmData : ImageData) (opts : WatermarkOptions) (framesCount : Int) : Option (Step Img) :=
  match V.RgbColourspace img with
  | .error err => some (.error err, [.RgbColourspace])
  | .ok img1 =>
    let wm := V.empty
    let width := V.Width img1
    let height := V.Height img1
    if framesCount = 0 then none
    else
      let r : Step Img :=
        Step.bind
          (prepareWatermark V E wm wmData opts width (Int.tdiv height framesCount) framesCount)
          fun wm1 =>
            let opacity := opts.Opacity * E.WatermarkOpacity
            Step.call (.ApplyWatermark opacity) (V.ApplyWatermark img1 wm1 opacity)
      some (r.1, [.RgbColourspace] ++ r.2 ++ [.Clear])

/-- The function `watermark`: the pipeline stage. `globalWatermark` is `imagedata.Watermark`
(`none` for `nil`). -/
def watermark {Img : Type} (V : Vips Img) (E : WatermarkEnv Img)
    (globalWatermark : Option ImageData) (img : Img) (po : ProcessingOptions) :
    Option (Step Img) :=
  if !po.Watermark.Enabled || globalWatermark.isNone then some (Step.pure img)
  else
    match globalWatermark with
    | none => some (Step.pure img)
    | some wmData => applyWatermark V E img wmData po.Watermark 1

/-- The arguments of the last `Replicate` call of a log, if there is one. -/
def lastReplicate : List VipsCall → Option (Int × Int)
  | [] => none
  | c :: rest =>
    match lastReplicate rest with
    | some r => some r
    | none =>
      match c with
      | .Replicate w h => some (w, h)
      | _ => none

/-- The opacity of the `ApplyWatermark` calls of a log. -/
def compositeOpacities : List VipsCall → List ℚ
  | [] => []
  | .ApplyWatermark o :: rest => o :: compositeOpacities rest
  | _ :: rest => compositeOpacities rest

/-- The options of the `RunPipeline` calls of a log. -/
def pipelineOptions : List VipsCall → List ProcessingOptions
  | [] => []
  | .RunPipeline po :: rest => po :: pipelineOptions rest
  | _ :: rest => pipelineOptions rest

/-! ## A small engine, to run the processing code on concrete images -/

/-- An image reduced to its size and its metadata blobs. -/
structure SampleImage where
  Width : Int
  Height : Int
  Blobs : List (String × Bytes)
deriving DecidableEq

/-- An engine whose calls all succeed: `Replicate` and `Embed` produce an image of the size
asked for, `Strip` drops every blob, `Load` yields a 10 by 10 image. -/
def sampleVips : Vips SampleImage :=
  { GetBlob := fun img name =>
      match img.Blobs.lookup name with
      | some b => .ok b
      | none => .error (.other ("no field " ++ name))
    SetBlob := fun img name data =>
      { img with Blobs := (name, data) :: img.Blobs.filter (fun e => e.1 != name) }
    Strip := fun img _ => .ok { img with Blobs := [] }
    RgbColourspace := fun img => .ok img
    Load := fun img _ => .ok { img with Width := 10, Height := 10 }
    CopyMemory := fun img => .ok img
    Replicate := fun img w h => .ok { img with Width := w, Height := h }
    Embed := fun img w h _ _ => .ok { img with Width := w, Height := h }
    Width := fun img => img.Width
    Height := fun img => img.Height
    ApplyWatermark := fun img _ _ => .ok img
    Clear := fun img => { img with Width := 0, Height := 0, Blobs := [] }
    empty := { Width := 0, Height := 0, Blobs := [] } }

/-- A watermark environment whose pipeline leaves the image as it is, with the given opacity
ceiling. -/
def sampleWatermarkEnv (ceiling : ℚ) : WatermarkEnv SampleImage :=
  { NewProcessingOptions := sampleDefaults
    Scale := fun a scale => goInt (a * scale + 1 / 2)
    calcPosition := fun _ _ _ _ _ _ => (0, 0)
    RunPipeline := fun img _ _ => .ok img
    WatermarkOpacity := ceiling }

/-- Watermark options with the given opacity, replicate flag and gravity offsets, native
scale. -/
def sampleWatermark (opacity : ℚ) (replicate : Bool) (x y : ℚ) : WatermarkOptions :=
  { Enabled := true, Opacity := opacity, Replicate := replicate, Scale := 0,
    Gravity := { Typ := .GravityCenter, X := x, Y := y } }

/-- An IPTC library whose parser answers with a given map and whose serialiser writes, for each
entry, the record id, the tag id and the value. -/
def sampleIptc (parsed : IptcMap) : IptcLib :=
  { ParsePS3 := fun _ => .ok parsed
    Dump := fun m => m.flatMap fun e => e.1.RecordID :: e.1.TagID :: e.2 }

/-- Modelled from the spec: `FilterNamespaces` of the XMP library (not in the sources) retains
the listed namespaces and the top-level nodes that belong to them. -/
def specFilterNamespaces (doc : XmpDocument) (keep : List XmpNamespace) : XmpDocument :=
  { Namespaces := doc.Namespaces.filter fun ns => keep.contains ns
    Nodes := doc.Nodes.filter fun n => keep.any fun ns => ns.Name == n.Name }

/-- An XMP library whose reader answers with a given document and whose marshaller writes a
packet that is never empty: an opening byte, the names of the nodes, their children and their
attributes, a closing byte. -/
def sampleXmp (parsed : XmpDocument) : XmpLib :=
  { Read := fun _ => .ok parsed
    FilterNamespaces := specFilterNamespaces
    Marshal := fun doc =>
      .ok (60 :: (doc.Nodes.flatMap fun n =>
        n.Name.length :: (n.Nodes.map fun c => c.Name.length) ++
          (n.Attr.map fun a => a.Local.length)) ++ [62]) }

/-- An XMP document that holds one `dc` node with the single child `description`. -/
def descriptionOnly : XmpDocument :=
  { Namespaces := [{ Name := "dc" }]
    Nodes := [{ Name := "dc", Nodes := [{ Name := "description", Content := "a photo" }],
                Attr := [] }] }

/-! ## Theorems: the query-string parser -/

/-- Go `len(s) > 0` says that `s` is not the empty string. -/
theorem utf8ByteSize_pos_iff (s : String) : s.utf8ByteSize > 0 ↔ s ≠ "" := by
  cases s with
  | mk cs =>
    rw [String.utf8ByteSize_mk]
    cases cs with
    | nil => simp
    | cons c cs =>
      have := Char.utf8Size_pos c
      simp [String.utf8Len_cons, String.ext_iff, this]

/-- The loop of `parseQueryToURLOptions` appends, for each visited key, the key with the split
of its last value. -/
theorem parseQueryLoop_eq (opts : Values) (hne : ∀ e ∈ opts, e.2 ≠ []) (acc : urlOptions) :
    parseQueryLoop opts acc =
      some (acc ++ opts.map fun e => { Name := e.1, Args := stringsSplit (e.2.getLastD "") ':' }) := by
  induction opts generalizing acc with
  | nil => simp [parseQueryLoop]
  | cons e rest ih =>
    have he : e.2 ≠ [] := hne e (List.mem_cons_self _ _)
    have hrest : ∀ x ∈ rest, x.2 ≠ [] := fun x hx => hne x (List.mem_cons_of_mem _ hx)
    obtain ⟨k, vs⟩ := e
    simp only at he
    obtain ⟨init, last, rfl⟩ : ∃ init last, vs = init ++ [last] :=
      ⟨vs.dropLast, vs.getLast he, (List.dropLast_append_getLast he).symm⟩
    simp [parseQueryLoop, parseQueryEntry, ih hrest]

/-- In a sequence built from a map with distinct keys, one entry carries a given key. -/
theorem filter_name_of_nodup (opts : Values) (f : String × List String → List String)
    (hkeys : (opts.map Prod.fst).Nodup) (e : String × List String) (he : e ∈ opts) :
    (opts.map fun x => ({ Name := x.1, Args := f x } : urlOption)).filter
      (fun o => o.Name == e.1) = [{ Name := e.1, Args := f e }] := by
  induction opts with
  | nil => simp at he
  | cons x rest ih =>
    simp only [List.map_cons, List.nodup_cons] at hkeys
    rcases List.mem_cons.1 he with rfl | hmem
    · have hno : ∀ y ∈ rest, ¬ (y.1 = e.1) := by
        intro y hy hEq
        exact hkeys.1 (hEq ▸ List.mem_map_of_mem Prod.fst hy)
      have hnil : (rest.map fun x => ({ Name := x.1, Args := f x } : urlOption)).filter
          (fun o => o.Name == e.1) = [] := by
        simp only [List.filter_eq_nil_iff, List.mem_map, forall_exists_index, and_imp]
        rintro o y hy rfl
        simpa using hno y hy
      simp [List.filter_cons, hnil]
    · have hx : ¬ (x.1 = e.1) := by
        intro hEq
        exact hkeys.1 (hEq ▸ List.mem_map_of_mem Prod.fst hmem)
      simp [List.filter_cons, hx, ih hkeys.2 hmem]

/-- C1. Last value wins per query key: for a map with distinct keys, each holding at least one
value, `parseQueryToURLOptions` returns a sequence whose names are the keys, one entry per key,
and the only entry named `key` has as arguments the colon-split of the last value of `key`;
the earlier values do not appear in the result. -/
theorem parseQueryToURLOptions_last_value_wins (opts : Values)
    (hkeys : (opts.map Prod.fst).Nodup) (hne : ∀ e ∈ opts, e.2 ≠ []) :
    ∃ parsed : urlOptions,
      parseQueryToURLOptions opts = some parsed ∧
      parsed.map (fun o => o.Name) = opts.map Prod.fst ∧
      ∀ (key : String) (earlier : List String) (last : String),
        (key, earlier ++ [last]) ∈ opts →
          parsed.filter (fun o => o.Name == key) =
            [{ Name := key, Args := stringsSplit last ':' }] := by
  refine ⟨_, parseQueryLoop_eq opts hne [], ?_, ?_⟩
  · simp [Function.comp_def]
  · intro key earlier last hmem
    have := filter_name_of_nodup opts (fun e => stringsSplit (e.2.getLastD "") ':') hkeys _ hmem
    simpa using this

/-- C1 at `background=fff&background=`: the single entry `(background, [""])`. -/
theorem parseQueryToURLOptions_background_disable :
    ∃ parsed : urlOptions,
      parseQueryToURLOptions [("background", ["fff", ""])] = some parsed ∧
      parsed = [{ Name := "background", Args := [""] }] := by
  obtain ⟨parsed, h1, h2, h3⟩ :=
    parseQueryToURLOptions_last_value_wins [("background", ["fff", ""])] (by decide) (by decide)
  refine ⟨parsed, h1, ?_⟩
  have h := h3 "background" ["fff"] "" (by decide)
  have hall : parsed.filter (fun o => o.Name == "background") = parsed := by
    rw [List.filter_eq_self]
    intro o ho
    have : o.Name ∈ parsed.map (fun o => o.Name) := List.mem_map_of_mem _ ho
    rw [h2] at this
    simpa using this
  rw [hall] at h
  rw [h]
  rfl


/-- C2. Path-extension precedence: when the defaults, the query options and the URL decoder all
succeed, `parseQueryOptions` with a non-empty extension calls the format handler once, last, on
the options produced by the query string, and returns what the handler returns (its options
with the decoded URL, or its error); so a handler that sets the format named by its argument
makes the returned format the one named by the extension, whatever the query holds. With an
empty extension the format handler is not called and the query-derived options are returned. -/
theorem parseQueryOptions_extension_applied_last {PO Headers : Type}
    (env : ParserEnv PO Headers) (pathParts : List String) (ops : Values) (headers : Headers)
    (po0 po1 : PO) (options : urlOptions) (url extension : String)
    (hdefault : env.defaultProcessingOptions headers = .ok po0)
    (hquery : parseQueryToURLOptions ops = some options)
    (happly : env.applyURLOptions po0 options = .ok po1)
    (hdecode : env.decodeURL pathParts = .ok (url, extension)) :
    (extension ≠ "" →
      parseQueryOptions env pathParts ops headers =
        some
          (match env.applyFormatOption po1 [extension] with
            | .ok po2 => (some po2, url, none)
            | .error err => (none, "", some err),
           [.defaultProcessingOptions, .applyURLOptions options, .decodeURL pathParts,
             .applyFormatOption [extension]]) ∧
      ∀ (F : Type) (format : PO → F) (named : String → F),
        (∀ po name po2, env.applyFormatOption po [name] = .ok po2 → format po2 = named name) →
        ∀ r po2, parseQueryOptions env pathParts ops headers = some r → r.1.1 = some po2 →
          format po2 = named extension) ∧
    (extension = "" →
      parseQueryOptions env pathParts ops headers =
        some ((some po1, url, none),
          [.defaultProcessingOptions, .applyURLOptions options, .decodeURL pathParts])) := by
  constructor
  · intro hext
    have hpos : extension.utf8ByteSize > 0 := (utf8ByteSize_pos_iff extension).2 hext
    have hrun : parseQueryOptions env pathParts ops headers =
        some
          (match env.applyFormatOption po1 [extension] with
            | .ok po2 => (some po2, url, none)
            | .error err => (none, "", some err),
           [.defaultProcessingOptions, .applyURLOptions options, .decodeURL pathParts,
             .applyFormatOption [extension]]) := by
      simp only [parseQueryOptions, hdefault, hquery, happly, hdecode, hpos, if_true]
      cases env.applyFormatOption po1 [extension] <;> rfl
    refine ⟨hrun, ?_⟩
    intro F format named hfmt r po2 hr hpo
    rw [hrun] at hr
    cases hcase : env.applyFormatOption po1 [extension] with
    | error err =>
      rw [hcase] at hr
      cases hr
      simp at hpo
    | ok po3 =>
      rw [hcase] at hr
      cases hr
      simp only [Option.some.injEq] at hpo
      subst hpo
      exact hfmt po1 extension _ hcase
  · intro hext
    subst hext
    have hzero : ¬ ("".utf8ByteSize > 0) := by decide
    simp only [parseQueryOptions, hdefault, hquery, happly, hdecode, hzero, if_false]

/-- C2 at `image.png?format=webp`: the query sets WEBP, the extension `png` is applied last and
the returned format is PNG. -/
theorem parseQueryOptions_png_over_webp :
    (parseQueryOptions (sampleEnv [("format", ["webp"])] ("http://images.dev/image", "png"))
        ["plain", "http:", "", "images.dev", "image@png"] [("format", ["webp"])] ()).map
      (fun r => (r.1.1.map (fun po => po.Format), r.1.2.1)) =
      some (some .PNG, "http://images.dev/image") ∧
    specApplyURLOptions sampleDefaults [{ Name := "format", Args := ["webp"] }] =
      .ok { sampleDefaults with Format := .WEBP } := by
  have h := (parseQueryOptions_extension_applied_last
    (sampleEnv [("format", ["webp"])] ("http://images.dev/image", "png"))
    ["plain", "http:", "", "images.dev", "image@png"] [("format", ["webp"])] ()
    sampleDefaults { sampleDefaults with Format := .WEBP }
    [{ Name := "format", Args := ["webp"] }] "http://images.dev/image" "png"
    rfl (by decide) rfl rfl).1 (by decide)
  refine ⟨?_, rfl⟩
  rw [h.1]
  rfl

/-- C3. Evaluation of the parser on one query, `resize=fill:100:200&width=50`, enumerated in
its two possible orders: the two enumerations hold the same entries, the sequences built by
`parseQueryToURLOptions` differ, and the parsed widths differ (50 when `resize` is visited
first, 100 when `width` is). -/
theorem parseQuery_depends_on_enumeration_order :
    List.Perm [("resize", ["fill:100:200"]), ("width", ["50"])]
      [("width", ["50"]), ("resize", ["fill:100:200"])] ∧
    parseQueryToURLOptions [("resize", ["fill:100:200"]), ("width", ["50"])] =
      some [{ Name := "resize", Args := ["fill", "100", "200"] },
        { Name := "width", Args := ["50"] }] ∧
    parseQueryToURLOptions [("width", ["50"]), ("resize", ["fill:100:200"])] =
      some [{ Name := "width", Args := ["50"] },
        { Name := "resize", Args := ["fill", "100", "200"] }] ∧
    (ParseQuery
        (sampleEnv [("resize", ["fill:100:200"]), ("width", ["50"])]
          ("http://images.dev/lorem/ipsum.jpg", ""))
        "/plain/http://images.dev/lorem/ipsum.jpg?resize=fill:100:200&width=50" ()).map
      (fun r => r.1.1.map (fun po => po.Width)) = some (some 50) ∧
    (ParseQuery
        (sampleEnv [("width", ["50"]), ("resize", ["fill:100:200"])]
          ("http://images.dev/lorem/ipsum.jpg", ""))
        "/plain/http://images.dev/lorem/ipsum.jpg?resize=fill:100:200&width=50" ()).map
      (fun r => r.1.1.map (fun po => po.Width)) = some (some 100) := by
  refine ⟨List.Perm.swap _ _ _, by decide, by decide, by decide, by decide⟩

/-- C6. Empty path is rejected: for every environment and headers, `ParseQuery` on `""` and on
`"/"` returns nil options, an empty source URL and an `ierrors` error of status 404, and calls
neither the URL parser, the option handlers nor the URL decoder. -/
theorem ParseQuery_empty_path_not_found {PO Headers : Type} (env : ParserEnv PO Headers)
    (headers : Headers) :
    ParseQuery env "" headers =
      some ((none, "", some (.ierror 404 "Invalid path: " "Invalid URL")), []) ∧
    ParseQuery env "/" headers =
      some ((none, "", some (.ierror 404 "Invalid path: /" "Invalid URL")), []) ∧
    (GoError.ierror 404 "Invalid path: " "Invalid URL").status = some 404 ∧
    (GoError.ierror 404 "Invalid path: /" "Invalid URL").status = some 404 := by
  refine ⟨?_, ?_, rfl, rfl⟩
  · simp [ParseQuery]
  · simp [ParseQuery]


/-! ## Theorems: the metadata sanitizer -/

/-- The loop of `stripIPTC` removes the entries whose key satisfies the loop's condition and is
among the keys visited. -/
theorem iptcLoop_eq_filter (keys : List IptcKey) (m : IptcMap) :
    iptcLoop keys m = m.filter fun e => !(iptcDeleted e.1 && decide (e.1 ∈ keys)) := by
  induction keys generalizing m with
  | nil => simp [iptcLoop]
  | cons key keys ih =>
    rw [iptcLoop, ih]
    by_cases hdel : iptcDeleted key = true
    · simp only [hdel, if_true, iptcDelete, List.filter_filter]
      apply List.filter_congr
      intro e _
      by_cases hk : e.1 = key
      · subst hk
        simp [hdel]
      · simp [hk]
    · simp only [hdel, if_false]
      apply List.filter_congr
      intro e _
      by_cases hk : e.1 = key
      · subst hk
        simp [hdel]
      · simp [hk]

/-- The map `stripIPTC` keeps is the parsed map without the entries the loop's condition
selects. -/
theorem iptcKept_eq_filter (m : IptcMap) :
    iptcKept m = m.filter fun e => !iptcDeleted e.1 := by
  rw [iptcKept, iptcLoop_eq_filter]
  apply List.filter_congr
  intro e he
  have : e.1 ∈ m.map Prod.fst := List.mem_map_of_mem Prod.fst he
  simp [this]


/-- C4, as stated, fails: a parsed map holding one entry of record 1 (tag 5) is kept whole by
`stripIPTC`, which returns its serialisation and not nil, although the entry is not a record-2
entry with tag 80, 110 or 116. -/
theorem stripIPTC_keeps_other_records :
    iptcKept [(⟨1, 5⟩, [7])] = [(⟨1, 5⟩, [7])] ∧
    iptcKept [(⟨1, 5⟩, [7])] ≠
      [((⟨1, 5⟩ : IptcKey), [7])].filter (fun e =>
        e.1.RecordID == 2 && (e.1.TagID == 80 || e.1.TagID == 110 || e.1.TagID == 116)) ∧
    stripIPTC sampleVips (sampleIptc [(⟨1, 5⟩, [7])])
      { Width := 1, Height := 1, Blobs := [("iptc-data", [28, 1, 5])] } = some [1, 5, 7] := by
  refine ⟨by decide, by decide, by decide⟩

/-- C4, amended: for every successfully parsed IPTC map, the map `stripIPTC` keeps holds
exactly the entries whose record id is not 2 or whose tag id is 80, 110 or 116 (only the
record-2 entries with another tag are discarded), in their order; `stripIPTC` returns nil if
no entry remains and the serialisation of the kept map otherwise. -/
theorem stripIPTC_keeps_copyright_and_other_records {Img : Type} (V : Vips Img) (L : IptcLib)
    (img : Img) (iptcData : Bytes) (iptcMap : IptcMap)
    (hblob : V.GetBlob img "iptc-data" = .ok iptcData) (hlen : iptcData ≠ [])
    (hparse : L.ParsePS3 iptcData = .ok iptcMap) :
    iptcKept iptcMap =
      iptcMap.filter (fun e =>
        e.1.RecordID != 2 || (e.1.TagID == 80 || e.1.TagID == 110 || e.1.TagID == 116)) ∧
    (∀ e, e ∈ iptcKept iptcMap ↔
      e ∈ iptcMap ∧
        (e.1.RecordID ≠ 2 ∨ e.1.TagID = 80 ∨ e.1.TagID = 110 ∨ e.1.TagID = 116)) ∧
    (iptcKept iptcMap = [] → stripIPTC V L img = none) ∧
    (iptcKept iptcMap ≠ [] → stripIPTC V L img = some (L.Dump (iptcKept iptcMap))) := by
  have hfilter : iptcKept iptcMap =
      iptcMap.filter (fun e =>
        e.1.RecordID != 2 || (e.1.TagID == 80 || e.1.TagID == 110 || e.1.TagID == 116)) := by
    rw [iptcKept_eq_filter]
    apply List.filter_congr
    intro e _
    simp only [iptcDeleted]
    cases h1 : (e.1.RecordID == 2) <;> cases h2 : (e.1.TagID == 80) <;>
      cases h3 : (e.1.TagID == 110) <;> cases h4 : (e.1.TagID == 116) <;>
      simp [bne, h1, h2, h3, h4]
  have hlen0 : ¬ (iptcData.length = 0) := by
    simpa [List.length_eq_zero] using hlen
  refine ⟨hfilter, ?_, ?_, ?_⟩
  · intro e
    rw [hfilter, List.mem_filter]
    simp [or_assoc]
  · intro hnil
    simp [stripIPTC, hblob, hlen0, hparse, hnil]
  · intro hne
    have : ¬ ((iptcKept iptcMap).length = 0) := by
      simpa [List.length_eq_zero] using hne
    simp [stripIPTC, hblob, hlen0, hparse, this]

/-- C4 at record-2 tags 80, 99 and 110: only the tags 80 and 110 are kept. -/
theorem stripIPTC_record2_tags_80_99_110 :
    iptcKept [(⟨2, 80⟩, [1]), (⟨2, 99⟩, [2]), (⟨2, 110⟩, [3])] =
      [(⟨2, 80⟩, [1]), (⟨2, 110⟩, [3])] ∧
    stripIPTC sampleVips (sampleIptc [(⟨2, 80⟩, [1]), (⟨2, 99⟩, [2]), (⟨2, 110⟩, [3])])
      { Width := 1, Height := 1, Blobs := [("iptc-data", [28, 2, 80])] } =
      some [2, 80, 1, 2, 110, 3] := by
  have h := stripIPTC_keeps_copyright_and_other_records sampleVips
    (sampleIptc [(⟨2, 80⟩, [1]), (⟨2, 99⟩, [2]), (⟨2, 110⟩, [3])])
    { Width := 1, Height := 1, Blobs := [("iptc-data", [28, 2, 80])] } [28, 2, 80]
    [(⟨2, 80⟩, [1]), (⟨2, 99⟩, [2]), (⟨2, 110⟩, [3])] rfl (by decide) rfl
  refine ⟨h.1.trans (by decide), ?_⟩
  rw [h.2.2.2 (by decide)]
  decide


/-- The loop of `stripXMP` over the top-level nodes changes no node's name and removes no
node: the filtered document has as many top-level nodes as the library left. -/
theorem xmpFiltered_length (X : XmpLib) (xmpDoc : XmpDocument) :
    (xmpFiltered X xmpDoc).Nodes.length =
      (X.FilterNamespaces xmpDoc (xmpDoc.Namespaces.filter xmpKeptNamespace)).Nodes.length := by
  simp [xmpFiltered]

/-- A `dc` node none of whose children and attributes is kept comes out of the loop body
empty. -/
theorem xmpFilterNode_dc_emptied (n : XmpNode) (hname : n.Name = "dc")
    (hchildren : ∀ c ∈ n.Nodes, xmpKeptChild c = false)
    (hattrs : ∀ a ∈ n.Attr, xmpKeptAttr a = false) :
    xmpFilterNode n = { Name := "dc", Nodes := [], Attr := [] } := by
  have h1 : n.Nodes.filter xmpKeptChild = [] := by
    rw [List.filter_eq_nil_iff]
    intro c hc
    simp [hchildren c hc]
  have h2 : n.Attr.filter xmpKeptAttr = [] := by
    rw [List.filter_eq_nil_iff]
    intro a ha
    simp [hattrs a ha]
  simp [xmpFilterNode, hname, h1, h2]

/-- C7, as stated, fails: for the document holding one `dc` node with the single child
`description`, the document filtered by `stripXMP` still has one top-level node (the emptied
`dc` node), `stripXMP` returns the marshalled bytes and not nil, and `stripMetadata` sets the
`xmp-data` blob after the strip. -/
theorem stripXMP_description_only_not_absent :
    (xmpFiltered (sampleXmp descriptionOnly) descriptionOnly).Nodes =
      [{ Name := "dc", Nodes := [], Attr := [] }] ∧
    stripXMP sampleVips (sampleXmp descriptionOnly)
      { Width := 1, Height := 1, Blobs := [("xmp-data", [60, 62])] } = some [60, 2, 62] ∧
    (stripMetadata sampleVips (sampleIptc []) (sampleXmp descriptionOnly)
      { Width := 1, Height := 1, Blobs := [("xmp-data", [60, 62])] } sampleDefaults).2.2 =
      [.GetBlob "iptc-data", .GetBlob "xmp-data", .Strip true,
        .SetBlob "xmp-data" [60, 2, 62]] := by
  refine ⟨by decide, by decide, by decide⟩

/-- C7, amended: when the document, once the library has filtered its namespaces, holds one
`dc` node none of whose children and attributes is `rights`, `contributor`, `creator` or
`publisher`, the document filtered by `stripXMP` holds exactly one top-level node, the `dc`
node without children and attributes; `stripXMP` returns the bytes the marshaller produces for
that document, and nil only when marshalling fails; and `stripMetadata`, with both flags set and
a successful strip, sets the `xmp-data` blob exactly when those bytes are not empty. -/
theorem stripXMP_emptied_dc_node_remains {Img : Type} (V : Vips Img) (L : IptcLib) (X : XmpLib)
    (img : Img) (po : ProcessingOptions) (xmpData : Bytes) (xmpDoc : XmpDocument) (n : XmpNode)
    (hblob : V.GetBlob img "xmp-data" = .ok xmpData) (hlen : xmpData ≠ [])
    (hread : X.Read xmpData = .ok xmpDoc)
    (hnodes : (X.FilterNamespaces xmpDoc (xmpDoc.Namespaces.filter xmpKeptNamespace)).Nodes =
      [n])
    (hname : n.Name = "dc")
    (hchildren : ∀ c ∈ n.Nodes, xmpKeptChild c = false)
    (hattrs : ∀ a ∈ n.Attr, xmpKeptAttr a = false) :
    (xmpFiltered X xmpDoc).Nodes = [{ Name := "dc", Nodes := [], Attr := [] }] ∧
    (∀ data, X.Marshal (xmpFiltered X xmpDoc) = .ok data → stripXMP V X img = some data) ∧
    (∀ err, X.Marshal (xmpFiltered X xmpDoc) = .error err → stripXMP V X img = none) ∧
    (∀ img1, po.StripMetadata = true → po.KeepCopyright = true →
      V.Strip img true = .ok img1 →
      ∀ data, X.Marshal (xmpFiltered X xmpDoc) = .ok data →
        (VipsCall.SetBlob "xmp-data" data ∈ (stripMetadata V L X img po).2.2 ↔ data ≠ [])) := by
  have hfiltered : (xmpFiltered X xmpDoc).Nodes = [{ Name := "dc", Nodes := [], Attr := [] }] := by
    simp [xmpFiltered, hnodes, xmpFilterNode_dc_emptied n hname hchildren hattrs]
  have hlen0 : ¬ (xmpData.length = 0) := by
    simpa [List.length_eq_zero] using hlen
  have hok : ∀ data, X.Marshal (xmpFiltered X xmpDoc) = .ok data →
      stripXMP V X img = some data := by
    intro data hm
    simp [stripXMP, hblob, hlen0, hread, hfiltered, hm]
  refine ⟨hfiltered, hok, ?_, ?_⟩
  · intro err hm
    simp [stripXMP, hblob, hlen0, hread, hfiltered, hm]
  · intro img1 hstrip hkeep hs data hm
    have hx := hok data hm
    by_cases hd : data = []
    · subst hd
      simp [stripMetadata, hstrip, hkeep, hs, hx, Blob.len]
      split <;> simp
    · have hpos : 0 < data.length := List.length_pos.2 hd
      simp [stripMetadata, hstrip, hkeep, hs, hx, Blob.len, hpos, hd]

/-- C7, amended, at the document holding one `dc` node with the single child `description`. -/
theorem stripXMP_description_only_marshalled :
    (xmpFiltered (sampleXmp descriptionOnly) descriptionOnly).Nodes =
      [{ Name := "dc", Nodes := [], Attr := [] }] ∧
    VipsCall.SetBlob "xmp-data" [60, 2, 62] ∈
      (stripMetadata sampleVips (sampleIptc []) (sampleXmp descriptionOnly)
        { Width := 1, Height := 1, Blobs := [("xmp-data", [60, 62])] } sampleDefaults).2.2 := by
  have h := stripXMP_emptied_dc_node_remains sampleVips (sampleIptc [])
    (sampleXmp descriptionOnly)
    { Width := 1, Height := 1, Blobs := [("xmp-data", [60, 62])] } sampleDefaults [60, 62]
    descriptionOnly
    { Name := "dc", Nodes := [{ Name := "description", Content := "a photo" }], Attr := [] }
    rfl (by decide) rfl (by decide) rfl (by decide) (by decide)
  exact ⟨h.1, (h.2.2.2 { Width := 1, Height := 1, Blobs := [] } rfl rfl rfl [60, 2, 62]
    rfl).2 (by decide)⟩


/-- C8. Metadata stage call sequence. With `StripMetadata` false, `stripMetadata` returns no
error, the image as it was, and calls nothing. Otherwise the calls that change the image are,
in order: one `Strip(KeepCopyright)`; then, only if the strip succeeded and `KeepCopyright` is
set, `SetBlob("iptc-data", ..)` exactly when the filtered IPTC data is not empty, and
`SetBlob("xmp-data", ..)` exactly when the filtered XMP data is not empty. A failing strip's
error is returned unchanged with no blob set; a successful strip gives a nil error. With
`KeepCopyright` false no blob is set and no blob is read. -/
theorem stripMetadata_call_sequence {Img : Type} (V : Vips Img) (L : IptcLib) (X : XmpLib)
    (img : Img) (po : ProcessingOptions) :
    (po.StripMetadata = false → stripMetadata V L X img po = (none, img, [])) ∧
    (po.StripMetadata = true →
      (∀ err, V.Strip img po.KeepCopyright = .error err →
        (stripMetadata V L X img po).1 = some err ∧
        (stripMetadata V L X img po).2.2.filter VipsCall.isMutation =
          [.Strip po.KeepCopyright]) ∧
      (∀ img1, V.Strip img po.KeepCopyright = .ok img1 →
        (stripMetadata V L X img po).1 = none ∧
        (stripMetadata V L X img po).2.2.filter VipsCall.isMutation =
          [.Strip po.KeepCopyright] ++
          (if po.KeepCopyright = true ∧ (stripIPTC V L img).len > 0 then
            [.SetBlob "iptc-data" ((stripIPTC V L img).getD [])] else []) ++
          (if po.KeepCopyright = true ∧ (stripXMP V X img).len > 0 then
            [.SetBlob "xmp-data" ((stripXMP V X img).getD [])] else [])) ∧
      (po.KeepCopyright = false →
        ∀ c ∈ (stripMetadata V L X img po).2.2, c = .Strip false)) := by
  refine ⟨?_, ?_⟩
  · intro h
    simp [stripMetadata, h]
  · intro h
    refine ⟨?_, ?_, ?_⟩
    · intro err hs
      cases hk : po.KeepCopyright <;>
        simp [stripMetadata, h, hk, hs, hk ▸ hs, VipsCall.isMutation, List.filter]
    · intro img1 hs
      cases hk : po.KeepCopyright
      · rw [hk] at hs
        simp [stripMetadata, h, hk, hs, VipsCall.isMutation, List.filter]
      · rw [hk] at hs
        by_cases h1 : (stripIPTC V L img).len > 0 <;>
          by_cases h2 : (stripXMP V X img).len > 0 <;>
          simp [stripMetadata, h, hk, hs, h1, h2, VipsCall.isMutation, List.filter]
    · intro hk c hc
      cases hs : V.Strip img false <;>
        simp [stripMetadata, h, hk, hs] at hc <;> exact hc


/-! ## Theorems: the watermark compositor -/

/-- Truncation toward zero rounds a non-negative number down. -/
theorem goInt_of_nonneg (f : ℚ) (h : 0 ≤ f) : goInt f = ⌊f⌋ := by
  have hnum : 0 ≤ f.num := Rat.num_nonneg.2 h
  rw [goInt, Rat.floor_def, Int.tdiv_eq_ediv hnum (Int.ofNat_nonneg _)]

/-- Truncation toward zero is odd. -/
theorem goInt_neg (f : ℚ) : goInt (-f) = -goInt f := by
  simp [goInt, Int.neg_tdiv]

/-- Truncation toward zero rounds a non-positive number up. -/
theorem goInt_of_nonpos (f : ℚ) (h : f ≤ 0) : goInt f = ⌈f⌉ := by
  have h1 : goInt (-f) = ⌊-f⌋ := goInt_of_nonneg (-f) (by linarith)
  rw [goInt_neg, Int.floor_neg] at h1
  exact neg_injective h1

/-- Half of a non-negative offset, rounded down, is at most the rest of its integer part, and
the rest exceeds it by at most one. -/
theorem floor_half_split (f : ℚ) (h : 0 ≤ f) :
    0 ≤ ⌊f / 2⌋ ∧ ⌊f / 2⌋ ≤ ⌊f⌋ - ⌊f / 2⌋ ∧ ⌊f⌋ - ⌊f / 2⌋ ≤ ⌊f / 2⌋ + 1 := by
  have h0 : 0 ≤ ⌊f / 2⌋ := Int.floor_nonneg.2 (by linarith)
  have hle : ((⌊f / 2⌋ : ℤ) : ℚ) ≤ f / 2 := Int.floor_le _
  have hlt : f / 2 < (⌊f / 2⌋ : ℚ) + 1 := Int.lt_floor_add_one _
  have hfl : ((⌊f⌋ : ℤ) : ℚ) ≤ f := Int.floor_le _
  have h1 : 2 * ⌊f / 2⌋ ≤ ⌊f⌋ := by
    apply Int.le_floor.2
    push_cast
    linarith
  have h2 : ⌊f⌋ < 2 * ⌊f / 2⌋ + 2 := by
    have : ((⌊f⌋ : ℤ) : ℚ) < ((2 * ⌊f / 2⌋ + 2 : ℤ) : ℚ) := by
      push_cast
      linarith
    exact_mod_cast this
  refine ⟨h0, by omega, by omega⟩


/-- C10, as stated, fails for a negative offset: with replicate set and X = -3 the left inset is
-1 (X/2 = -1.5 truncated toward zero), whereas X/2 rounded down is -2. -/
theorem watermarkOptions_left_not_rounded_down :
    (watermarkOptions (sampleWatermarkEnv 1) { Typ := .PNG, Data := [] }
      (sampleWatermark 1 true (-3) 0) 200 100).Padding.Left = -1 ∧
    ⌊(-3 : ℚ) / 2⌋ = -2 ∧
    (watermarkOptions (sampleWatermarkEnv 1) { Typ := .PNG, Data := [] }
      (sampleWatermark 1 true (-3) 0) 200 100).Padding.Left ≠ ⌊(-3 : ℚ) / 2⌋ := by
  have hleft : (watermarkOptions (sampleWatermarkEnv 1) { Typ := .PNG, Data := [] }
      (sampleWatermark 1 true (-3) 0) 200 100).Padding.Left = -1 := by
    have h1 : goInt ((-3 : ℚ) / 2) = -1 := by
      have h2 : ((-3 : ℚ) / 2) = -(3 / 2) := by norm_num
      rw [h2, goInt_neg, goInt_of_nonneg _ (by norm_num)]
      have : ⌊(3 : ℚ) / 2⌋ = 1 := by
        rw [Int.floor_eq_iff]
        constructor <;> norm_num
      rw [this]
    simp [watermarkOptions, sampleWatermark, h1]
  have hfloor : ⌊(-3 : ℚ) / 2⌋ = -2 := by
    rw [Int.floor_eq_iff]
    constructor <;> norm_num
  refine ⟨hleft, hfloor, ?_⟩
  rw [hleft, hfloor]
  decide

/-- C10, amended: with replicate set, the options `prepareWatermark` builds have padding
enabled with Left = int(X/2), Right = int(X) - Left, Top = int(Y/2), Bottom = int(Y) - Top,
where `int` truncates toward zero; hence Left + Right = int(X) and Top + Bottom = int(Y). For a
non-negative offset truncation is rounding down and 0 ≤ Left ≤ Right ≤ Left + 1 (likewise Top,
Bottom); for a non-positive offset truncation is rounding up. Without replicate the padding is
the default one. -/
theorem watermarkOptions_replicate_padding {Img : Type} (E : WatermarkEnv Img)
    (wmData : ImageData) (opts : WatermarkOptions) (imgWidth imgHeight : Int) :
    (opts.Replicate = true →
      (watermarkOptions E wmData opts imgWidth imgHeight).Padding =
        { Enabled := true
          Left := goInt (opts.Gravity.X / 2)
          Right := goInt opts.Gravity.X - goInt (opts.Gravity.X / 2)
          Top := goInt (opts.Gravity.Y / 2)
          Bottom := goInt opts.Gravity.Y - goInt (opts.Gravity.Y / 2) } ∧
      (watermarkOptions E wmData opts imgWidth imgHeight).Padding.Left +
        (watermarkOptions E wmData opts imgWidth imgHeight).Padding.Right =
        goInt opts.Gravity.X ∧
      (watermarkOptions E wmData opts imgWidth imgHeight).Padding.Top +
        (watermarkOptions E wmData opts imgWidth imgHeight).Padding.Bottom =
        goInt opts.Gravity.Y ∧
      (0 ≤ opts.Gravity.X →
        goInt (opts.Gravity.X / 2) = ⌊opts.Gravity.X / 2⌋ ∧
        goInt opts.Gravity.X = ⌊opts.Gravity.X⌋ ∧
        0 ≤ (watermarkOptions E wmData opts imgWidth imgHeight).Padding.Left ∧
        (watermarkOptions E wmData opts imgWidth imgHeight).Padding.Left ≤
          (watermarkOptions E wmData opts imgWidth imgHeight).Padding.Right ∧
        (watermarkOptions E wmData opts imgWidth imgHeight).Padding.Right ≤
          (watermarkOptions E wmData opts imgWidth imgHeight).Padding.Left + 1) ∧
      (0 ≤ opts.Gravity.Y →
        goInt (opts.Gravity.Y / 2) = ⌊opts.Gravity.Y / 2⌋ ∧
        goInt opts.Gravity.Y = ⌊opts.Gravity.Y⌋ ∧
        0 ≤ (watermarkOptions E wmData opts imgWidth imgHeight).Padding.Top ∧
        (watermarkOptions E wmData opts imgWidth imgHeight).Padding.Top ≤
          (watermarkOptions E wmData opts imgWidth imgHeight).Padding.Bottom ∧
        (watermarkOptions E wmData opts imgWidth imgHeight).Padding.Bottom ≤
          (watermarkOptions E wmData opts imgWidth imgHeight).Padding.Top + 1) ∧
      (opts.Gravity.X ≤ 0 →
        goInt (opts.Gravity.X / 2) = ⌈opts.Gravity.X / 2⌉ ∧
        goInt opts.Gravity.X = ⌈opts.Gravity.X⌉) ∧
      (opts.Gravity.Y ≤ 0 →
        goInt (opts.Gravity.Y / 2) = ⌈opts.Gravity.Y / 2⌉ ∧
        goInt opts.Gravity.Y = ⌈opts.Gravity.Y⌉)) ∧
    (opts.Replicate = false →
      (watermarkOptions E wmData opts imgWidth imgHeight).Padding =
        E.NewProcessingOptions.Padding) := by
  constructor
  · intro hrep
    have hpad : (watermarkOptions E wmData opts imgWidth imgHeight).Padding =
        { Enabled := true
          Left := goInt (opts.Gravity.X / 2)
          Right := goInt opts.Gravity.X - goInt (opts.Gravity.X / 2)
          Top := goInt (opts.Gravity.Y / 2)
          Bottom := goInt opts.Gravity.Y - goInt (opts.Gravity.Y / 2) } := by
      simp [watermarkOptions, hrep]
    rw [hpad]
    refine ⟨rfl, by simp, by simp, ?_, ?_, ?_, ?_⟩
    · intro hx
      have hhalf : goInt (opts.Gravity.X / 2) = ⌊opts.Gravity.X / 2⌋ :=
        goInt_of_nonneg _ (by linarith)
      have hfull : goInt opts.Gravity.X = ⌊opts.Gravity.X⌋ := goInt_of_nonneg _ hx
      have hs := floor_half_split opts.Gravity.X hx
      refine ⟨hhalf, hfull, ?_, ?_, ?_⟩
      · simpa [hhalf] using hs.1
      · simpa [hhalf, hfull] using hs.2.1
      · simpa [hhalf, hfull] using hs.2.2
    · intro hy
      have hhalf : goInt (opts.Gravity.Y / 2) = ⌊opts.Gravity.Y / 2⌋ :=
        goInt_of_nonneg _ (by linarith)
      have hfull : goInt opts.Gravity.Y = ⌊opts.Gravity.Y⌋ := goInt_of_nonneg _ hy
      have hs := floor_half_split opts.Gravity.Y hy
      refine ⟨hhalf, hfull, ?_, ?_, ?_⟩
      · simpa [hhalf] using hs.1
      · simpa [hhalf, hfull] using hs.2.1
      · simpa [hhalf, hfull] using hs.2.2
    · intro hx
      exact ⟨goInt_of_nonpos _ (by linarith), goInt_of_nonpos _ hx⟩
    · intro hy
      exact ⟨goInt_of_nonpos _ (by linarith), goInt_of_nonpos _ hy⟩
  · intro hrep
    simp only [watermarkOptions, hrep, Bool.false_eq_true, if_false]
    split <;> rfl


/-- The opacities of a log made of two parts. -/
theorem compositeOpacities_append (l1 l2 : List VipsCall) :
    compositeOpacities (l1 ++ l2) = compositeOpacities l1 ++ compositeOpacities l2 := by
  induction l1 with
  | nil => rfl
  | cons c rest ih => cases c <;> simp [compositeOpacities, ih]

/-- Sequencing two steps that do not composite gives a step that does not composite. -/
theorem compositeOpacities_bind {α β : Type} (x : Step α) (f : α → Step β)
    (hx : compositeOpacities x.2 = []) (hf : ∀ a, compositeOpacities (f a).2 = []) :
    compositeOpacities (Step.bind x f).2 = [] := by
  obtain ⟨r, log⟩ := x
  cases r with
  | error err => simpa [Step.bind] using hx
  | ok a =>
    simp only [Step.bind, compositeOpacities_append]
    simp only at hx
    rw [hx, hf a]
    rfl

/-- The function `prepareWatermark` does not composite. -/
theorem prepareWatermark_no_composite {Img : Type} (V : Vips Img) (E : WatermarkEnv Img)
    (wm : Img) (wmData : ImageData) (opts : WatermarkOptions)
    (imgWidth imgHeight framesCount : Int) :
    compositeOpacities
      (prepareWatermark V E wm wmData opts imgWidth imgHeight framesCount).2 = [] := by
  unfold prepareWatermark
  apply compositeOpacities_bind
  · rfl
  · intro wm1
    apply compositeOpacities_bind
    · rfl
    · intro wm2
      apply compositeOpacities_bind
      · split <;> rfl
      · intro wm3
        apply compositeOpacities_bind
        · split <;> rfl
        · intro wm4
          split <;> rfl

/-- C9, as stated, fails: with opacity 2 and ceiling 1 the opacity passed to the composite is
2, which is above 1 and is not the product clamped to [0,1]. -/
theorem applyWatermark_opacity_not_clamped :
    (applyWatermark sampleVips (sampleWatermarkEnv 1)
        { Width := 200, Height := 300, Blobs := [] } { Typ := .PNG, Data := [] }
        (sampleWatermark 2 false 0 0) 1).map (fun r => compositeOpacities r.2) = some [2] ∧
    (2 : ℚ) ≠ max 0 (min 1 ((sampleWatermark 2 false 0 0).Opacity *
      (sampleWatermarkEnv 1).WatermarkOpacity)) := by
  constructor
  · simp [applyWatermark, prepareWatermark, Step.bind, Step.call, Step.pure, sampleVips,
      sampleWatermarkEnv, sampleWatermark, compositeOpacities]
  · simp [sampleWatermark, sampleWatermarkEnv]

/-- C9, amended: when `applyWatermark` reaches the composite (a non-zero frame count, a
successful colour-space conversion and a successful `prepareWatermark`), it makes exactly one
composite call and the opacity it passes is `opacity × ceiling`, with no clamping; that product
lies in [0,1], and so equals its clamp to [0,1], whenever the opacity and the ceiling both lie
in [0,1]. -/
theorem applyWatermark_opacity_is_product {Img : Type} (V : Vips Img) (E : WatermarkEnv Img)
    (img img1 wm1 : Img) (wmData : ImageData) (opts : WatermarkOptions) (framesCount : Int)
    (hframes : framesCount ≠ 0)
    (hrgb : V.RgbColourspace img = .ok img1)
    (hprepare : (prepareWatermark V E V.empty wmData opts (V.Width img1)
      (Int.tdiv (V.Height img1) framesCount) framesCount).1 = .ok wm1) :
    ∃ r, applyWatermark V E img wmData opts framesCount = some r ∧
      compositeOpacities r.2 = [opts.Opacity * E.WatermarkOpacity] ∧
      (0 ≤ opts.Opacity → opts.Opacity ≤ 1 → 0 ≤ E.WatermarkOpacity →
        E.WatermarkOpacity ≤ 1 →
          0 ≤ opts.Opacity * E.WatermarkOpacity ∧ opts.Opacity * E.WatermarkOpacity ≤ 1 ∧
          opts.Opacity * E.WatermarkOpacity =
            max 0 (min 1 (opts.Opacity * E.WatermarkOpacity))) := by
  refine ⟨_, by simp only [applyWatermark, hrgb, hframes, if_false]; rfl, ?_, ?_⟩
  · have hno := prepareWatermark_no_composite V E V.empty wmData opts (V.Width img1)
      (Int.tdiv (V.Height img1) framesCount) framesCount
    generalize prepareWatermark V E V.empty wmData opts (V.Width img1)
      (Int.tdiv (V.Height img1) framesCount) framesCount = p at hprepare hno
    obtain ⟨res, log⟩ := p
    simp only at hprepare hno
    subst hprepare
    simp [Step.bind, Step.call, compositeOpacities_append, hno, compositeOpacities]
  · intro h0 h1 c0 c1
    have hnn : 0 ≤ opts.Opacity * E.WatermarkOpacity := mul_nonneg h0 c0
    have hle : opts.Opacity * E.WatermarkOpacity ≤ 1 := mul_le_one₀ h1 c0 c1
    exact ⟨hnn, hle, by rw [min_eq_right hle, max_eq_right hnn]⟩

/-- C9, amended, at opacity 1/2 and ceiling 1/2: the composite receives 1/4. -/
theorem applyWatermark_opacity_half_of_half :
    ∃ r, applyWatermark sampleVips (sampleWatermarkEnv (1 / 2))
        { Width := 200, Height := 300, Blobs := [] } { Typ := .PNG, Data := [] }
        (sampleWatermark (1 / 2) false 0 0) 1 = some r ∧
      compositeOpacities r.2 = [1 / 4] := by
  obtain ⟨r, hr, hop, _⟩ := applyWatermark_opacity_is_product sampleVips
    (sampleWatermarkEnv (1 / 2)) { Width := 200, Height := 300, Blobs := [] }
    { Width := 200, Height := 300, Blobs := [] } { Width := 200, Height := 300, Blobs := [] }
    { Typ := .PNG, Data := [] } (sampleWatermark (1 / 2) false 0 0) 1 (by decide) rfl
    (by simp [prepareWatermark, Step.bind, Step.call, Step.pure, sampleVips,
      sampleWatermarkEnv, sampleWatermark])
  refine ⟨r, hr, ?_⟩
  rw [hop]
  simp [sampleWatermark, sampleWatermarkEnv]
  norm_num


/-- A log that ends with a `Replicate` call has that call as its last one. -/
theorem lastReplicate_append_replicate (l : List VipsCall) (w h : Int) :
    lastReplicate (l ++ [.Replicate w h]) = some (w, h) := by
  induction l with
  | nil => rfl
  | cons c rest ih => simp [lastReplicate, ih]

/-- A successful sequence ran both of its parts, and its log is theirs, in order. -/
theorem Step.bind_ok {α β : Type} (x : Step α) (f : α → Step β) (b : β)
    (h : (Step.bind x f).1 = .ok b) :
    ∃ a, x.1 = .ok a ∧ (f a).1 = .ok b ∧ (Step.bind x f).2 = x.2 ++ (f a).2 := by
  obtain ⟨r, log⟩ := x
  cases r with
  | error err => simp [Step.bind] at h
  | ok a => exact ⟨a, rfl, by simpa [Step.bind] using h, by simp [Step.bind]⟩

/-- Whenever `prepareWatermark` succeeds with more than one frame, its last `Replicate` call is
`Replicate(imgWidth, imgWidth*framesCount)`. -/
theorem prepareWatermark_last_replicate {Img : Type} (V : Vips Img) (E : WatermarkEnv Img)
    (wm wm5 : Img) (wmData : ImageData) (opts : WatermarkOptions)
    (imgWidth imgHeight framesCount : Int) (hframes : framesCount > 1)
    (hok : (prepareWatermark V E wm wmData opts imgWidth imgHeight framesCount).1 = .ok wm5) :
    lastReplicate (prepareWatermark V E wm wmData opts imgWidth imgHeight framesCount).2 =
      some (imgWidth, imgWidth * framesCount) := by
  unfold prepareWatermark at hok ⊢
  obtain ⟨wm1, _, h1, e1⟩ := Step.bind_ok _ _ _ hok
  rw [e1]
  obtain ⟨wm2, _, h2, e2⟩ := Step.bind_ok _ _ _ h1
  rw [e2]
  obtain ⟨wm3, _, h3, e3⟩ := Step.bind_ok _ _ _ h2
  rw [e3]
  obtain ⟨wm4, _, _, e4⟩ := Step.bind_ok _ _ _ h3
  rw [e4]
  simp only [hframes, if_true, Step.call, ← List.append_assoc]
  exact lastReplicate_append_replicate _ _ _

/-- C5. Evaluation of `applyWatermark` on a primary image 200 wide and 300 high with three
frames. `prepareWatermark` receives the single-frame height 100 (the first placement spans
200 x 100), but its last `Replicate` call spans 200 x 600, that is width x (width x frames),
and not 200 x 300 = width x (height x frames); with and without the replicate option. -/
theorem applyWatermark_three_frames_last_replicate :
    (applyWatermark sampleVips (sampleWatermarkEnv 1)
        { Width := 200, Height := 300, Blobs := [] } { Typ := .PNG, Data := [] }
        (sampleWatermark 1 true 0 0) 3).map (fun r => lastReplicate r.2) =
      some (some (200, 600)) ∧
    (applyWatermark sampleVips (sampleWatermarkEnv 1)
        { Width := 200, Height := 300, Blobs := [] } { Typ := .PNG, Data := [] }
        (sampleWatermark 1 false 0 0) 3).map (fun r => lastReplicate r.2) =
      some (some (200, 600)) ∧
    (∃ r, applyWatermark sampleVips (sampleWatermarkEnv 1)
        { Width := 200, Height := 300, Blobs := [] } { Typ := .PNG, Data := [] }
        (sampleWatermark 1 true 0 0) 3 = some r ∧ VipsCall.Replicate 200 100 ∈ r.2) ∧
    (∃ r, applyWatermark sampleVips (sampleWatermarkEnv 1)
        { Width := 200, Height := 300, Blobs := [] } { Typ := .PNG, Data := [] }
        (sampleWatermark 1 false 0 0) 3 = some r ∧ VipsCall.Embed 200 100 0 0 ∈ r.2) ∧
    ((200, 600) : Int × Int) ≠ (200, Int.tdiv 300 3 * 3) := by
  refine ⟨rfl, rfl, ⟨_, rfl, ?_⟩, ⟨_, rfl, ?_⟩, by decide⟩
  · simp [prepareWatermark, Step.bind, Step.call, Step.pure, sampleVips,
      sampleWatermarkEnv, sampleWatermark]
    decide
  · simp [prepareWatermark, Step.bind, Step.call, Step.pure, sampleVips,
      sampleWatermarkEnv, sampleWatermark]
    decide

end Imgproxy
